import Mathlib

/-!
Shallow embedding of `postfile.go` (package main of magisterquis/postfile).

The program accepts POST requests and saves each body to a fresh file in an
output directory.  The parts embedded here are the ones the claims are about:

* `makeName` — building the destination file name from the request's remote
  address, its URL path (sanitized via `filepath.Clean`, `strings.TrimPrefix`
  and `strings.Replace`) and a zero-padded sequence number;
* `openFile` — the `for` loop probing candidate names with `os.Stat` under a
  process-wide mutex and then opening the chosen name with
  `O_WRONLY|O_APPEND|O_CREATE|O_EXCL`;
* `handle` — method check, open, `io.Copy` body streaming, response;
* the FastCGI socket-path resolution performed in `main`.

Bytes are modelled as `Nat`, the filesystem as an association list from file
names to contents, and the body stream of a request as the list of bytes that
can be read before end-of-input or a read error.  The side effects of `handle`
are recorded as an event trace so that the locking discipline is visible.
-/

namespace Postfile

/-! ### Decimal formatting (Go `fmt` verbs `%v` and `%06v` on a non-negative int) -/

/-- Decimal digit character of a value below ten. -/
def digitChar (n : Nat) : Char :=
  Char.ofNat (48 + n)

/-- Fuel-driven decimal expansion; with fuel above `n` it yields the decimal
digits of `n`, most significant first. -/
def digitsAux : Nat → Nat → List Char
  | 0, _ => []
  | fuel + 1, n =>
    if n < 10 then [digitChar n]
    else digitsAux fuel (n / 10) ++ [digitChar (n % 10)]

/-- Decimal digits of a natural number, most significant first: the output of
Go's `%v` verb on a non-negative integer. -/
def digits (n : Nat) : List Char :=
  digitsAux (n + 1) n

/-- Decimal string of a natural number (Go `fmt.Sprintf "%v"` on an int ≥ 0). -/
def natToString (n : Nat) : String :=
  ⟨digits n⟩

/-- Go `fmt.Sprintf "%06v"`: the decimal representation left-padded with zeros
to a minimum width of six. -/
def pad6 (n : Nat) : String :=
  ⟨List.replicate (6 - (digits n).length) '0' ++ digits n⟩

/-! ### Unix path manipulation (`path/filepath` and `strings` library calls) -/

/-- Split a character list at every `'/'` (the element-splitting step of
`filepath.Clean`; mirrors `strings.Split` on `"/"`). -/
def splitSlash : List Char → List (List Char)
  | [] => [[]]
  | c :: cs =>
    if c = '/' then [] :: splitSlash cs
    else
      match splitSlash cs with
      | [] => [[c]]
      | g :: gs => (c :: g) :: gs

/-- Stack pass of `filepath.Clean`: process the non-empty path elements in
order, dropping `.` elements, resolving `..` against the last real element
(a rooted path drops an unmatched `..`, an unrooted one keeps it).  The
accumulator holds the kept elements in reverse order. -/
def cleanStack (rooted : Bool) : List (List Char) → List (List Char) → List (List Char)
  | stk, [] => stk
  | stk, e :: rest =>
    if e = [ '.' ] then cleanStack rooted stk rest
    else if e = [ '.', '.' ] then
      match stk with
      | top :: stk' =>
        if top = [ '.', '.' ] then cleanStack rooted (e :: top :: stk') rest
        else cleanStack rooted stk' rest
      | [] =>
        if rooted then cleanStack rooted [] rest
        else cleanStack rooted [e] rest
    else cleanStack rooted (e :: stk) rest

/-- Join path elements with `'/'` separators. -/
def joinSlash : List (List Char) → List Char
  | [] => []
  | [e] => e
  | e :: es => e ++ '/' :: joinSlash es

/-- Go `path/filepath.Clean` on a Unix path: empty input becomes `"."`,
multiple separators collapse, `.` elements vanish, `..` elements cancel the
preceding real element (or vanish at the root of a rooted path), and an empty
result becomes `"."`. -/
def clean (p : String) : String :=
  match p.data with
  | [] => "."
  | c :: cs =>
    let rooted := c = '/'
    let elems := (cleanStack rooted [] (((c :: cs) |> splitSlash).filter (fun e => e ≠ []))).reverse
    let out := (if rooted then [ '/' ] else []) ++ joinSlash elems
    if out = [] then "." else ⟨out⟩

/-- Go `strings.TrimPrefix s "/"`: remove one leading slash if present. -/
def trimPrefixSlash (s : String) : String :=
  match s.data with
  | '/' :: cs => ⟨cs⟩
  | _ => s

/-- Go `strings.Replace s "/" "_" (-1)`: replace every slash by an underscore. -/
def replaceSlash (s : String) : String :=
  ⟨s.data.map (fun c => if c = '/' then '_' else c)⟩

/-- Go `path/filepath.IsAbs` on Unix: `strings.HasPrefix path "/"`, i.e.
the first character is a slash. -/
def isAbs (p : String) : Bool :=
  p.data.head? = some '/'

/-- Go `path/filepath.Join a b` on Unix: empty elements are dropped, the rest
are joined with a slash and the result is cleaned. -/
def filepathJoin (a b : String) : String :=
  if a.data = [] then
    if b.data = [] then "" else clean b
  else if b.data = [] then clean a
  else clean (a ++ "/" ++ b)

/-! ### Requests and destination names -/

/-- The part of an `http.Request` that `handle`, `openFile` and `makeName`
consult: the method, `r.URL.Path`, `r.RemoteAddr`, the bytes the body reader
delivers before it stops, and whether it stops with a read error instead of a
clean end-of-input. -/
structure Request where
  method : String
  urlPath : String
  remoteAddr : String
  body : List Nat
  bodyErr : Bool
deriving DecidableEq, Repr

/-- The sanitized path component of a destination name:
`strings.Replace (strings.TrimPrefix (filepath.Clean r.URL.Path) "/") "/" "_" (-1)`. -/
def sanitizePath (p : String) : String :=
  replaceSlash (trimPrefixSlash (clean p))

/-- Go `makeName`: `fmt.Sprintf "%s_%s_%06v" r.RemoteAddr <sanitized path> num`. -/
def makeName (r : Request) (num : Nat) : String :=
  r.remoteAddr ++ "_" ++ sanitizePath r.urlPath ++ "_" ++ pad6 num

/-! ### Filesystem model -/

/-- The output directory: an association list from file names to byte
contents.  All the program's file operations happen directly in it. -/
abbrev FS := List (String × List Nat)

/-- Existence check backing `os.Stat`. -/
def fsExists (fs : FS) (name : String) : Bool :=
  (fs.lookup name).isSome

/-- Content of a file, if it exists. -/
def fsGet (fs : FS) (name : String) : Option (List Nat) :=
  fs.lookup name

/-- Create an empty file (the effect of a successful
`O_CREATE|O_EXCL` open of a nonexistent name). -/
def fsCreate (fs : FS) (name : String) : FS :=
  (name, []) :: fs

/-- Append bytes to an existing file (the effect of writes through a handle
opened with `O_APPEND`). -/
def fsAppend (fs : FS) (name : String) (bs : List Nat) : FS :=
  fs.map (fun p => if p.1 = name then (p.1, p.2 ++ bs) else p)

/-! ### The name-probing loop of `openFile` -/

/-- Outcome of one `os.Stat` call: success, a does-not-exist error
(`os.IsNotExist` returns true), or any other error such as permission
denied. -/
inductive StatResult where
  | ok
  | notExist
  | otherErr
deriving DecidableEq, Repr

/-- The loop condition of `openFile`'s `for` loop:
`nil == err || !os.IsNotExist(err)`.  `none` stands for the nil error the
loop starts with. -/
def loopCond : Option StatResult → Bool
  | none => true
  | some e => ¬(e = StatResult.notExist)

/-- The `for` loop of `openFile`, one constructor argument per loop variable.
The Go loop is

  for name = makeName(r, num); nil == err || !os.IsNotExist(err);
      name = makeName(r, num) {
          _, err = os.Stat(name)
          num++
  }

so each iteration stats the current `name`, increments `num`, and the post
statement recomputes `name` from the incremented `num` before the condition
is re-checked.  `stat` is the Stat oracle, `mk` is `makeName r`, and the
result is the final value of `name` together with the list of names statted,
or `none` when the fuel runs out (the Go loop would keep running). -/
def openFileSearch (stat : String → StatResult) (mk : Nat → String) :
    Nat → String → Nat → Option StatResult → Option (String × List String)
  | 0, _, _, _ => none
  | fuel + 1, name, num, err =>
    if loopCond err then
      match openFileSearch stat mk fuel (mk (num + 1)) (num + 1) (some (stat name)) with
      | none => none
      | some (res, probes) => some (res, name :: probes)
    else
      some (name, [])

/-- Stat oracle of the concrete filesystem model: a name either exists or
yields a does-not-exist error. -/
def statFS (fs : FS) (name : String) : StatResult :=
  if fsExists fs name then StatResult.ok else StatResult.notExist

/-- Go `openFile` without the mutex bookkeeping: run the probing loop from
`num = 0` and then open the final `name` with
`os.OpenFile name O_WRONLY|O_APPEND|O_CREATE|O_EXCL 0600`, which creates the
file when the name is free and fails with an exists-error otherwise.
Returns the opened name and the updated directory, plus the probed names. -/
def openFile (fs : FS) (r : Request) (fuel : Nat) :
    Option (Option (String × FS) × List String) :=
  match openFileSearch (statFS fs) (makeName r) fuel (makeName r 0) 0 none with
  | none => none
  | some (name, probes) =>
    if fsExists fs name then some (none, probes)
    else some (some (name, fsCreate fs name), probes)

/-! ### Event traces and the request handler -/

/-- Observable action of one request handler, in program order.  `lock` and
`unlock` are `LOCK.Lock()` and the deferred `LOCK.Unlock()` around the body
of `openFile`; `probe` is one `os.Stat` of a candidate name; `create` is the
`os.OpenFile ... O_EXCL` call; `write` is the `io.Copy` transfer with its
byte count; `respond` is the status code and body handed to the
`http.ResponseWriter`; `close` is the deferred `f.Close()`. -/
inductive Ev where
  | lock
  | probe (name : String)
  | create (name : String)
  | unlock
  | write (nbytes : Nat)
  | respond (status : Nat) (body : String)
  | close
deriving DecidableEq, Repr

/-- A status code together with the body string handed to the response
writer (`http.Error` or `fmt.Fprintf w`). -/
structure Response where
  status : Nat
  body : String
deriving DecidableEq, Repr

/-- Result of `handle` on one request: the directory afterwards, the
response, and the trace of observable actions. -/
structure HandleResult where
  fs : FS
  resp : Response
  trace : List Ev
deriving Repr

/-- Go `handle`: reject non-POST methods with 405 `"Invalid method"`; open a
fresh file via `openFile` (whose probe/create section runs between `lock` and
`unlock`), answering 500 `"open"` if that fails; `io.Copy` the body into the
file, answering 500 `"write"` when the body reader errors out and leaving
the partially written file in place; otherwise answer 200 with the decimal
byte count.  The deferred `f.Close()` runs after the response on every path
that opened the file.  `none` only when the probing fuel runs out. -/
def handle (fs : FS) (r : Request) (fuel : Nat) : Option HandleResult :=
  if r.method ≠ "POST" then
    some ⟨fs, ⟨405, "Invalid method"⟩, [Ev.respond 405 "Invalid method"]⟩
  else
    match openFile fs r fuel with
    | none => none
    | some (none, probes) =>
      some ⟨fs, ⟨500, "open"⟩,
        Ev.lock :: (probes.map Ev.probe ++ [Ev.unlock, Ev.respond 500 "open"])⟩
    | some (some (name, fs1), probes) =>
      let n := r.body.length
      let fs2 := fsAppend fs1 name r.body
      let pre := Ev.lock :: (probes.map Ev.probe ++ [Ev.create name, Ev.unlock])
      if r.bodyErr then
        some ⟨fs2, ⟨500, "write"⟩,
          pre ++ [Ev.write n, Ev.respond 500 "write", Ev.close]⟩
      else
        some ⟨fs2, ⟨200, natToString n⟩,
          pre ++ [Ev.write n, Ev.respond 200 (natToString n), Ev.close]⟩

/-! ### Startup path resolution in `main` (FastCGI mode) -/

/-- Resolution of a path by the operating system against a current working
directory: an absolute path stands for itself, a relative one is taken
relative to the directory. -/
def resolveAgainst (cwd p : String) : String :=
  if isAbs p then p else filepathJoin cwd p

/-- The startup sequence of `main` that matters for the socket path: capture
the original working directory, change into the output directory, and in
FastCGI mode rewrite a relative listen address to
`filepath.Join opwd laddr`.  Returns the working directory after the
`os.Chdir` and the listen address the program passes to `net.Listen`. -/
def mainSetup (cwd0 dir laddr : String) (serveFCGI : Bool) : String × String :=
  let opwd := cwd0
  let cwd1 := resolveAgainst cwd0 dir
  let laddr1 :=
    if serveFCGI ∧ ¬ isAbs laddr then filepathJoin opwd laddr else laddr
  (cwd1, laddr1)

/-- The filesystem location at which the FastCGI socket is created: the
listen address computed by `mainSetup`, resolved by the kernel against the
working directory the process has at `net.Listen` time. -/
def socketPath (cwd0 dir laddr : String) : String :=
  let s := mainSetup cwd0 dir laddr true
  resolveAgainst s.1 s.2

/-! ### Interleaved execution of several handlers -/

/-- Does the event belong to the find-unused-name-then-create-file
sequence? -/
def isCritical : Ev → Bool
  | Ev.probe _ => true
  | Ev.create _ => true
  | _ => false

/-- Is the event a body-streaming step? -/
def isWrite : Ev → Bool
  | Ev.write _ => true
  | _ => false

/-- State of `k` concurrently running handler invocations: the events each
one has yet to perform, and which of them (if any) currently holds the
process-wide `LOCK`. -/
structure Sys (k : Nat) where
  rem : Fin k → List Ev
  holder : Option (Fin k)

/-- Interleaving semantics: a scheduler repeatedly picks one task and lets it
perform its next event.  `Ev.lock` blocks until no task holds the mutex,
`Ev.unlock` is performed by the holder, every other event is always
enabled — mutual exclusion of the probe/create phase is not built in here,
it has to come from where the events sit in each task's program order. -/
inductive Step {k : Nat} : Sys k → Sys k → Prop
  | lock (s : Sys k) (i : Fin k) (tl : List Ev) :
      s.rem i = Ev.lock :: tl → s.holder = none →
      Step s ⟨Function.update s.rem i tl, some i⟩
  | unlock (s : Sys k) (i : Fin k) (tl : List Ev) :
      s.rem i = Ev.unlock :: tl → s.holder = some i →
      Step s ⟨Function.update s.rem i tl, none⟩
  | other (s : Sys k) (i : Fin k) (e : Ev) (tl : List Ev) :
      s.rem i = e :: tl → e ≠ Ev.lock → e ≠ Ev.unlock →
      Step s ⟨Function.update s.rem i tl, s.holder⟩

/-- Reflexive-transitive closure of `Step`. -/
inductive Reaches {k : Nat} : Sys k → Sys k → Prop
  | refl (s : Sys k) : Reaches s s
  | tail {s t u : Sys k} : Reaches s t → Step t u → Reaches s u

/-- Task `i` is inside its critical section: it has performed its `lock`
but not yet its `unlock`. -/
def inCrit {k : Nat} (s : Sys k) (i : Fin k) : Prop :=
  Ev.lock ∉ s.rem i ∧ Ev.unlock ∈ s.rem i

/-- Well-formed remaining trace of a task: it is, for some lock-free and
unlock-free `mid` and `post`, either the whole trace
`lock :: mid ++ unlock :: post`, or the part `mid ++ unlock :: post` left
after taking the lock, or the part `post` left after releasing it.  Traces
produced by `handle` have this shape (a rejected request is the `post`-only
case), and the shape is preserved by every `Step`. -/
def TraceOK (t : List Ev) : Prop :=
  ∃ mid post,
    (t = Ev.lock :: (mid ++ Ev.unlock :: post) ∨
      t = mid ++ Ev.unlock :: post ∨ t = post) ∧
    Ev.lock ∉ mid ∧ Ev.unlock ∉ mid ∧ Ev.lock ∉ post ∧ Ev.unlock ∉ post

/-- System invariant: every remaining trace is well formed, and a task that
is inside its critical section is the one holding the mutex. -/
def SysInv {k : Nat} (s : Sys k) : Prop :=
  (∀ i, TraceOK (s.rem i)) ∧ (∀ i, inCrit s i → s.holder = some i)

/-! ### Behaviour of the probing loop -/

/-- A loop round whose incoming error is a not-exist stat error stops at
once, returning the current name and statting nothing. -/
theorem openFileSearch_stop (stat : String → StatResult) (mk : Nat → String)
    (fuel : Nat) (name : String) (num : Nat) :
    openFileSearch stat mk (fuel + 1) name num (some StatResult.notExist)
      = some (name, []) := by
  simp [openFileSearch, loopCond]

/-- If candidate `m` is the first one whose stat reports not-exist, the loop
started at candidate `j ≤ m` stats candidates `j` through `m` and exits with
the name of candidate `m + 1` (the post statement of the `for` loop has
already recomputed `name` from the incremented `num` when the condition
stops the loop). -/
theorem openFileSearch_exit (stat : String → StatResult) (mk : Nat → String)
    (m : Nat) (hm : stat (mk m) = StatResult.notExist)
    (hlt : ∀ k, k < m → ¬ stat (mk k) = StatResult.notExist) :
    ∀ fuel j err, j ≤ m → loopCond err = true → m + 2 ≤ fuel + j →
      openFileSearch stat mk fuel (mk j) j err
        = some (mk (m + 1), List.map mk (List.range' j (m - j + 1))) := by
  intro fuel
  induction fuel with
  | zero => intro j err hj _ hfj; omega
  | succ f ih =>
    intro j err hj herr hfj
    unfold openFileSearch
    simp only [herr, if_true]
    by_cases hjm : j = m
    · subst hjm
      rw [hm]
      obtain ⟨f2, rfl⟩ : ∃ f2, f = f2 + 1 := ⟨f - 1, by omega⟩
      rw [openFileSearch_stop]
      have hr : List.range' j (j - j + 1) = [j] := by
        have : j - j + 1 = 1 := by omega
        rw [this, List.range'_one]
      rw [hr]
      rfl
    · have hjlt : j < m := by omega
      have herr2 : loopCond (some (stat (mk j))) = true := by
        simp [loopCond, hlt j hjlt]
      rw [ih (j + 1) (some (stat (mk j))) (by omega) herr2 (by omega)]
      have hr : List.range' j (m - j + 1) = j :: List.range' (j + 1) (m - (j + 1) + 1) := by
        have h1 : m - j + 1 = (m - (j + 1) + 1) + 1 := by omega
        rw [h1, List.range'_succ]
      rw [hr, List.map_cons]

/-- The loop started at `num = 0`, as `openFile` starts it: it stats
candidates `0` through `m` and exits with the name of candidate `m + 1`. -/
theorem openFileSearch_from_zero (stat : String → StatResult) (mk : Nat → String)
    (m : Nat) (hm : stat (mk m) = StatResult.notExist)
    (hlt : ∀ k, k < m → ¬ stat (mk k) = StatResult.notExist)
    (fuel : Nat) (hfuel : m + 2 ≤ fuel) :
    openFileSearch stat mk fuel (mk 0) 0 none
      = some (mk (m + 1), List.map mk (List.range (m + 1))) := by
  have h := openFileSearch_exit stat mk m hm hlt fuel 0 none (by omega) rfl (by omega)
  rw [h, List.range_eq_range']
  rfl

/-- If no candidate ever stats as not-exist, the loop never stops: any
amount of fuel is exhausted. -/
theorem openFileSearch_no_exit (stat : String → StatResult) (mk : Nat → String)
    (hall : ∀ k, ¬ stat (mk k) = StatResult.notExist) :
    ∀ fuel num err, loopCond err = true →
      openFileSearch stat mk fuel (mk num) num err = none := by
  intro fuel
  induction fuel with
  | zero => intro num err _; rfl
  | succ f ih =>
    intro num err herr
    unfold openFileSearch
    simp only [herr, if_true]
    rw [ih (num + 1) (some (stat (mk num))) (by simp [loopCond, hall num])]

/-- C10: the name-probe loop in `openFile` terminates only when a stat
reports that a candidate does not exist: any other outcome, including a
non-not-exist error, keeps the probe going at the next sequence number; and
when candidate `m` is the first whose stat yields a not-exist error, the
loop terminates after statting candidates `0` through `m`.  (When no
candidate ever yields not-exist the loop spins forever: every fuel bound is
exhausted.) -/
theorem C10_probe_loop_termination (stat : String → StatResult) (mk : Nat → String)
    (m : Nat) (hm : stat (mk m) = StatResult.notExist)
    (hlt : ∀ k, k < m → ¬ stat (mk k) = StatResult.notExist) :
    (∀ fuel, m + 2 ≤ fuel →
      ∃ probes, openFileSearch stat mk fuel (mk 0) 0 none = some (mk (m + 1), probes)
        ∧ probes = List.map mk (List.range (m + 1))) ∧
    (∀ (stat2 : String → StatResult), (∀ k, ¬ stat2 (mk k) = StatResult.notExist) →
      ∀ fuel, openFileSearch stat2 mk fuel (mk 0) 0 none = none) := by
  constructor
  · intro fuel hfuel
    exact ⟨_, openFileSearch_from_zero stat mk m hm hlt fuel hfuel, rfl⟩
  · intro stat2 hall fuel
    exact openFileSearch_no_exit stat2 mk hall fuel 0 none rfl

/-- Concrete probe oracle for the C10 witness: candidate `"0"` stats with a
permission-style error, candidate `"1"` does not exist, everything else
exists. -/
def statW (s : String) : StatResult :=
  if s = "0" then StatResult.otherErr
  else if s = "1" then StatResult.notExist
  else StatResult.ok

/-- Concrete candidate-name function for the C10 witness. -/
def mkW (k : Nat) : String :=
  natToString k

/-- Witness for C10: with the permission error on candidate 0 the probe
skips past it and stops at candidate 1, and with an oracle that never says
not-exist the loop exhausts its fuel. -/
theorem C10_probe_loop_termination_witness :
    statW (mkW 1) = StatResult.notExist ∧
    (∃ probes, openFileSearch statW mkW 3 (mkW 0) 0 none = some (mkW 2, probes)
      ∧ probes = List.map mkW (List.range 2)) ∧
    openFileSearch (fun _ => StatResult.ok) mkW 7 (mkW 0) 0 none = none := by
  obtain ⟨h1, h2⟩ := C10_probe_loop_termination statW mkW 1 (by decide)
    (by intro k hk; interval_cases k; decide)
  exact ⟨by decide, h1 3 (by omega),
    h2 (fun _ => StatResult.ok) (fun _ h => StatResult.noConfusion h) 7⟩

/-! ### Sample requests used by concrete evaluations -/

/-- A POST of three bytes to `/p` from `1.2.3.4:5`. -/
def rqA : Request := ⟨"POST", "/p", "1.2.3.4:5", [10, 20, 30], false⟩

/-- A POST of two bytes to `/p` from `1.2.3.4:5`. -/
def rqB : Request := ⟨"POST", "/p", "1.2.3.4:5", [7, 8], false⟩

/-- A GET request. -/
def rqGet : Request := ⟨"GET", "/p", "1.2.3.4:5", [], false⟩

/-- A POST from `9.9.9.9:1` whose body reader fails after one byte. -/
def rqErr : Request := ⟨"POST", "/p", "9.9.9.9:1", [9], true⟩

/-! ### What a successful open entails -/

/-- A successful `openFile` created exactly the returned name, which did not
exist before, as an empty file. -/
theorem openFile_created (fs : FS) (r : Request) (fuel : Nat)
    (name : String) (fs1 : FS) (probes : List String)
    (hopen : openFile fs r fuel = some (some (name, fs1), probes)) :
    fs1 = fsCreate fs name ∧ fsExists fs name = false := by
  unfold openFile at hopen
  split at hopen
  · exact absurd hopen (by simp)
  · split at hopen
    · exact absurd hopen (by simp)
    · next hex =>
      simp only [Option.some.injEq, Prod.mk.injEq] at hopen
      obtain ⟨⟨hn, hf⟩, -⟩ := hopen
      subst hn
      exact ⟨hf.symm, by simpa using hex⟩

/-- Appending bytes to the file just created leaves exactly those bytes as
its content. -/
theorem fsGet_append_create (fs : FS) (name : String) (bs : List Nat) :
    fsGet (fsAppend (fsCreate fs name) name bs) name = some bs := by
  have h : fsAppend (fsCreate fs name) name bs
      = (name, bs) :: List.map (fun p => if p.1 = name then (p.1, p.2 ++ bs) else p) fs := by
    unfold fsAppend fsCreate
    rw [List.map_cons, if_pos rfl]
    rfl
  rw [h]
  unfold fsGet
  simp [List.lookup]

/-! ### Claims C1 through C5 -/

/-- C1: refuted on the code.  The claim says `openFile` opens the candidate
with the smallest `n` such that `makeName r n` does not exist.  In an empty
directory candidate 0 is free and its stat reports not-exist, yet the loop's
post statement has already advanced `name` to candidate 1 when the condition
stops it, so the file actually created is `makeName r 1`: sequence number
`000001`, not `000000`. -/
theorem C1_opens_successor_of_free_candidate :
    makeName rqA 0 = "1.2.3.4:5_p_000000"
    ∧ fsExists [] (makeName rqA 0) = false
    ∧ openFile [] rqA 2
        = some (some ("1.2.3.4:5_p_000001", [("1.2.3.4:5_p_000001", [])]),
            ["1.2.3.4:5_p_000000"]) := by
  exact ⟨rfl, rfl, rfl⟩

/-- C2: refuted on the code.  Two sequential POSTs with the same remote
endpoint and path into an initially empty directory: the first succeeds and
creates sequence number `000001`, but the second probes candidate 0, finds
it still nonexistent, tries to create `000001` again, and the
`O_CREATE|O_EXCL` open fails, so the second request is answered
500 `"open"`.  The first file is indeed left unchanged. -/
theorem C2_second_request_fails :
    (handle [] rqB 2).map (fun res => (res.fs, res.resp))
      = some ([("1.2.3.4:5_p_000001", [7, 8])], ⟨200, "2"⟩)
    ∧ (handle [("1.2.3.4:5_p_000001", [7, 8])] rqB 2).map (fun res => (res.fs, res.resp))
      = some ([("1.2.3.4:5_p_000001", [7, 8])], ⟨500, "open"⟩) := by
  exact ⟨rfl, rfl⟩

/-- C3: for every POST request for which the open succeeds and whose body is
transferred without a read error, the created file's content equals the
request body byte for byte, the response status is 200, and the response
body is the decimal representation of the number of bytes written — for
every body, including the empty one. -/
theorem C3_success_reports_byte_count (fs : FS) (r : Request) (fuel : Nat)
    (hm : r.method = "POST") (hb : r.bodyErr = false)
    (name : String) (fs1 : FS) (probes : List String)
    (hopen : openFile fs r fuel = some (some (name, fs1), probes)) :
    ∃ res, handle fs r fuel = some res
      ∧ res.resp.status = 200
      ∧ res.resp.body = natToString r.body.length
      ∧ fsGet res.fs name = some r.body := by
  obtain ⟨hcreate, -⟩ := openFile_created fs r fuel name fs1 probes hopen
  have hh : handle fs r fuel
      = some ⟨fsAppend fs1 name r.body, ⟨200, natToString r.body.length⟩,
          (Ev.lock :: (probes.map Ev.probe ++ [Ev.create name, Ev.unlock]))
            ++ [Ev.write r.body.length,
                Ev.respond 200 (natToString r.body.length), Ev.close]⟩ := by
    unfold handle
    rw [if_neg (by simp [hm]), hopen, hb]
    rfl
  refine ⟨_, hh, rfl, rfl, ?_⟩
  rw [hcreate]
  exact fsGet_append_create fs name r.body

/-- Witness for C3: the concrete three-byte POST `rqA` into an empty
directory is answered 200 with body `"3"` and yields a file holding exactly
those three bytes. -/
theorem C3_success_reports_byte_count_witness :
    ∃ res, handle [] rqA 2 = some res
      ∧ res.resp.status = 200
      ∧ res.resp.body = natToString 3
      ∧ fsGet res.fs "1.2.3.4:5_p_000001" = some [10, 20, 30] := by
  have h := C3_success_reports_byte_count [] rqA 2 rfl rfl
    "1.2.3.4:5_p_000001" [("1.2.3.4:5_p_000001", [])] ["1.2.3.4:5_p_000000"] rfl
  simpa [rqA] using h

/-- C4: a request whose method is not POST is answered 405 with the body
handed to the response writer being `"Invalid method"`; the directory is
untouched and the trace holds the lone respond event — no lock, no name
probe, no file creation. -/
theorem C4_non_post_rejected (fs : FS) (r : Request) (fuel : Nat)
    (h : ¬ r.method = "POST") :
    ∃ res, handle fs r fuel = some res
      ∧ res.resp = ⟨405, "Invalid method"⟩
      ∧ res.fs = fs
      ∧ res.trace = [Ev.respond 405 "Invalid method"]
      ∧ Ev.lock ∉ res.trace
      ∧ ∀ e ∈ res.trace, isCritical e = false := by
  refine ⟨⟨fs, ⟨405, "Invalid method"⟩, [Ev.respond 405 "Invalid method"]⟩,
    ?_, rfl, rfl, rfl, by simp, ?_⟩
  · unfold handle
    rw [if_pos h]
  · intro e he
    rw [List.mem_singleton] at he
    subst he
    rfl

/-- Witness for C4: the concrete GET request `rqGet`. -/
theorem C4_non_post_rejected_witness :
    ¬ rqGet.method = "POST"
    ∧ ∃ res, handle [] rqGet 2 = some res
        ∧ res.resp = ⟨405, "Invalid method"⟩
        ∧ res.fs = []
        ∧ res.trace = [Ev.respond 405 "Invalid method"]
        ∧ Ev.lock ∉ res.trace
        ∧ ∀ e ∈ res.trace, isCritical e = false := by
  exact ⟨by decide, C4_non_post_rejected [] rqGet 2 (by decide)⟩

/-- C5: for a POST request, if the exclusive-create open fails the response
is 500 `"open"` and the directory is unchanged; if the open succeeds, the
deferred close appears on the trace on every exit path, and when the body
transfer fails the response is 500 `"write"` while the partially written
file stays in place holding the bytes delivered before the error. -/
theorem C5_failure_paths (fs : FS) (r : Request) (fuel : Nat)
    (hm : r.method = "POST") :
    (∀ probes, openFile fs r fuel = some (none, probes) →
      ∃ res, handle fs r fuel = some res ∧ res.resp = ⟨500, "open"⟩ ∧ res.fs = fs) ∧
    (∀ name fs1 probes, openFile fs r fuel = some (some (name, fs1), probes) →
      ∃ res, handle fs r fuel = some res
        ∧ Ev.close ∈ res.trace
        ∧ (r.bodyErr = true →
            res.resp = ⟨500, "write"⟩ ∧ fsGet res.fs name = some r.body)) := by
  constructor
  · intro probes hopen
    refine ⟨⟨fs, ⟨500, "open"⟩,
      Ev.lock :: (probes.map Ev.probe ++ [Ev.unlock, Ev.respond 500 "open"])⟩, ?_, rfl, rfl⟩
    unfold handle
    rw [if_neg (by simp [hm]), hopen]
  · intro name fs1 probes hopen
    obtain ⟨hcreate, -⟩ := openFile_created fs r fuel name fs1 probes hopen
    rcases hb : r.bodyErr with _ | _
    · refine ⟨⟨fsAppend fs1 name r.body, ⟨200, natToString r.body.length⟩,
        (Ev.lock :: (probes.map Ev.probe ++ [Ev.create name, Ev.unlock]))
          ++ [Ev.write r.body.length,
              Ev.respond 200 (natToString r.body.length), Ev.close]⟩,
        ?_, by simp, by simp [hb]⟩
      unfold handle
      rw [if_neg (by simp [hm]), hopen, hb]
      rfl
    · refine ⟨⟨fsAppend fs1 name r.body, ⟨500, "write"⟩,
        (Ev.lock :: (probes.map Ev.probe ++ [Ev.create name, Ev.unlock]))
          ++ [Ev.write r.body.length, Ev.respond 500 "write", Ev.close]⟩,
        ?_, by simp, fun _ => ⟨rfl, ?_⟩⟩
      · unfold handle
        rw [if_neg (by simp [hm]), hopen, hb]
        rfl
      · rw [hcreate]
        exact fsGet_append_create fs name r.body

/-- Witness for C5: the concrete POST `rqErr` whose body reader fails after
one byte is answered 500 `"write"`, the close event is on the trace, and the
one delivered byte is left in the created file. -/
theorem C5_failure_paths_witness :
    ∃ res, handle [] rqErr 2 = some res
      ∧ Ev.close ∈ res.trace
      ∧ res.resp = ⟨500, "write"⟩
      ∧ fsGet res.fs "9.9.9.9:1_p_000001" = some [9] := by
  obtain ⟨-, h2⟩ := C5_failure_paths [] rqErr 2 rfl
  obtain ⟨res, hres, hclose, himp⟩ :=
    h2 "9.9.9.9:1_p_000001" [("9.9.9.9:1_p_000001", [])] ["9.9.9.9:1_p_000000"] rfl
  exact ⟨res, hres, hclose, (himp rfl).1, (himp rfl).2⟩

/-! ### Shape of destination names (C6, C9) -/

/-- With enough fuel, the decimal expansion of `n < 10 ^ k` has at most `k`
digits (for `k ≥ 1`). -/
theorem digitsAux_length_le :
    ∀ (fuel n k : Nat), n < fuel → n < 10 ^ k → 1 ≤ k →
      (digitsAux fuel n).length ≤ k := by
  intro fuel
  induction fuel with
  | zero => intro n k h; omega
  | succ f ih =>
    intro n k hf hk hk1
    unfold digitsAux
    by_cases h10 : n < 10
    · rw [if_pos h10, List.length_singleton]
      omega
    · rw [if_neg h10]
      have hk2 : 2 ≤ k := by
        rcases Nat.lt_or_ge k 2 with hklt | hge
        · have hk1' : k = 1 := by omega
          subst hk1'
          rw [pow_one] at hk
          omega
        · exact hge
      have hpow : 10 ^ (k - 1) * 10 = 10 ^ k := by
        rw [← Nat.pow_succ]
        congr 1
        omega
      have hdiv : n / 10 < 10 ^ (k - 1) := by
        rw [Nat.div_lt_iff_lt_mul (by omega : 0 < 10), hpow]
        exact hk
      have hL := ih (n / 10) (k - 1) (by omega) hdiv (by omega)
      rw [List.length_append, List.length_singleton]
      omega

/-- Every character of the decimal expansion is a decimal digit
character. -/
theorem digitsAux_mem :
    ∀ (fuel n : Nat), ∀ c ∈ digitsAux fuel n, ∃ d, d < 10 ∧ c = digitChar d := by
  intro fuel
  induction fuel with
  | zero => intro n c hc; simp [digitsAux] at hc
  | succ f ih =>
    intro n c hc
    unfold digitsAux at hc
    by_cases h10 : n < 10
    · rw [if_pos h10, List.mem_singleton] at hc
      exact ⟨n, h10, hc⟩
    · rw [if_neg h10, List.mem_append] at hc
      rcases hc with hc | hc
      · exact ih (n / 10) c hc
      · rw [List.mem_singleton] at hc
        exact ⟨n % 10, Nat.mod_lt n (by omega), hc⟩

/-- Decimal digit characters are not the path separator. -/
theorem digitChar_ne_slash (d : Nat) (hd : d < 10) : digitChar d ≠ '/' := by
  interval_cases d <;> decide

/-- Below one million the zero-padded sequence-number field has exactly six
characters. -/
theorem pad6_length (n : Nat) (hn : n < 1000000) : (pad6 n).length = 6 := by
  have hpow : (10 : Nat) ^ 6 = 1000000 := by norm_num
  have hle : (digits n).length ≤ 6 :=
    digitsAux_length_le (n + 1) n 6 (by omega) (by omega) (by omega)
  unfold pad6
  rw [String.length_mk, List.length_append, List.length_replicate]
  omega

/-- Every character of the padded sequence-number field is a decimal digit
character. -/
theorem pad6_mem (n : Nat) : ∀ c ∈ (pad6 n).data, ∃ d, d < 10 ∧ c = digitChar d := by
  intro c hc
  change c ∈ List.replicate (6 - (digits n).length) '0' ++ digits n at hc
  rw [List.mem_append] at hc
  rcases hc with hc | hc
  · have h0 : c = '0' := List.eq_of_mem_replicate hc
    exact ⟨0, by omega, by rw [h0]; rfl⟩
  · exact digitsAux_mem (n + 1) n c hc

/-- The sanitized path component contains no separator: every slash left by
cleaning and prefix-stripping has been replaced by an underscore. -/
theorem sanitizePath_no_slash (p : String) : '/' ∉ (sanitizePath p).data := by
  intro hmem
  unfold sanitizePath replaceSlash at hmem
  change '/' ∈ List.map _ _ at hmem
  rw [List.mem_map] at hmem
  obtain ⟨x, -, hx⟩ := hmem
  by_cases hxs : x = '/'
  · rw [if_pos hxs] at hx
    exact absurd hx (by decide)
  · rw [if_neg hxs] at hx
    exact hxs hx

/-- If the remote endpoint holds no separator, neither does the whole
destination name. -/
theorem makeName_no_slash (r : Request) (n : Nat) (hr : '/' ∉ r.remoteAddr.data) :
    '/' ∉ (makeName r n).data := by
  intro hmem
  unfold makeName at hmem
  simp only [String.data_append, List.mem_append] at hmem
  rcases hmem with (((h | h) | h) | h) | h
  · exact hr h
  · exact absurd h (by decide)
  · exact sanitizePath_no_slash r.urlPath h
  · exact absurd h (by decide)
  · obtain ⟨d, hd, hcd⟩ := pad6_mem n '/' h
    exact digitChar_ne_slash d hd hcd.symm

/-- C6: for every request and sequence number below one million, `makeName`
yields `<remoteAddr>_<sanitized path>_<sequence>` where the sanitized
component is the cleaned path with one leading separator stripped and every
remaining separator replaced by an underscore, the sequence field is the
decimal value zero-padded to exactly six digit characters, and — the remote
endpoint itself being separator-free — the resulting name contains no
`'/'`. -/
theorem C6_makeName_format (r : Request) (n : Nat) (hn : n < 1000000)
    (hr : '/' ∉ r.remoteAddr.data) :
    makeName r n
      = r.remoteAddr ++ "_" ++ replaceSlash (trimPrefixSlash (clean r.urlPath))
          ++ "_" ++ pad6 n
    ∧ (pad6 n).length = 6
    ∧ (∀ c ∈ (pad6 n).data, ∃ d, d < 10 ∧ c = digitChar d)
    ∧ '/' ∉ (sanitizePath r.urlPath).data
    ∧ '/' ∉ (makeName r n).data :=
  ⟨rfl, pad6_length n hn, pad6_mem n, sanitizePath_no_slash r.urlPath,
    makeName_no_slash r n hr⟩

/-- Witness for C6 at the concrete request `rqA` and sequence number 7. -/
theorem C6_makeName_format_witness :
    (7 < 1000000 ∧ '/' ∉ ("1.2.3.4:5" : String).data)
    ∧ (makeName rqA 7
        = "1.2.3.4:5" ++ "_" ++ replaceSlash (trimPrefixSlash (clean "/p")) ++ "_" ++ pad6 7
      ∧ (pad6 7).length = 6
      ∧ (∀ c ∈ (pad6 7).data, ∃ d, d < 10 ∧ c = digitChar d)
      ∧ '/' ∉ (sanitizePath "/p").data
      ∧ '/' ∉ (makeName rqA 7).data) := by
  refine ⟨⟨by omega, by decide⟩, ?_⟩
  exact C6_makeName_format rqA 7 (by omega) (by decide)

/-- C9: `makeName` is not injective in the request path.  `/a/b` and `/a_b`
are distinct paths yielding the same component `a_b`; `/x`, `//x` and `/./x`
all yield `x`; the root path `/` yields an empty component.  Consequently
requests with such distinct paths share one numbering sequence of file
names, for any remote endpoint and every sequence number. -/
theorem C9_makeName_path_collisions :
    ("/a/b" ≠ ("/a_b" : String)
      ∧ ∀ (ra : String) (bs : List Nat) (be : Bool) (n : Nat),
          makeName ⟨"POST", "/a/b", ra, bs, be⟩ n
            = makeName ⟨"POST", "/a_b", ra, bs, be⟩ n)
    ∧ (∀ (ra : String) (bs : List Nat) (be : Bool) (n : Nat),
        makeName ⟨"POST", "/x", ra, bs, be⟩ n
            = makeName ⟨"POST", "//x", ra, bs, be⟩ n
        ∧ makeName ⟨"POST", "/x", ra, bs, be⟩ n
            = makeName ⟨"POST", "/./x", ra, bs, be⟩ n)
    ∧ sanitizePath "/" = "" := by
  refine ⟨⟨by decide, fun ra bs be n => rfl⟩,
    fun ra bs be n => ⟨rfl, rfl⟩, rfl⟩

/-! ### FastCGI socket-path resolution (C8) -/

/-- Cleaning a rooted path yields a rooted path. -/
theorem clean_rooted (p : String) (cs : List Char) (hp : p.data = '/' :: cs) :
    ∃ ds, (clean p).data = '/' :: ds := by
  unfold clean
  rw [hp]
  exact ⟨_, rfl⟩

/-- A path whose data starts with a slash is absolute. -/
theorem isAbs_of_data (p : String) (ds : List Char) (hp : p.data = '/' :: ds) :
    isAbs p = true := by
  unfold isAbs
  rw [hp]
  rfl

/-- An absolute path's data starts with a slash. -/
theorem data_of_isAbs (p : String) (h : isAbs p = true) :
    ∃ ds, p.data = '/' :: ds := by
  unfold isAbs at h
  rw [decide_eq_true_eq] at h
  rcases hd : p.data with _ | ⟨c, cs⟩
  · rw [hd] at h
    simp at h
  · rw [hd] at h
    simp at h
    subst h
    exact ⟨cs, rfl⟩

/-- Joining a relative path onto an absolute one yields an absolute path. -/
theorem filepathJoin_abs (a b : String) (ha : isAbs a = true) :
    isAbs (filepathJoin a b) = true := by
  obtain ⟨cs, hcwd⟩ := data_of_isAbs a ha
  unfold filepathJoin
  rw [if_neg (by rw [hcwd]; simp)]
  by_cases hb : b.data = []
  · rw [if_pos hb]
    obtain ⟨ds, hds⟩ := clean_rooted a cs hcwd
    exact isAbs_of_data _ ds hds
  · rw [if_neg hb]
    have hdata : (a ++ "/" ++ b).data = '/' :: (cs ++ '/' :: b.data) := by
      rw [String.data_append, String.data_append, hcwd]
      simp
    obtain ⟨ds, hds⟩ := clean_rooted (a ++ "/" ++ b) _ hdata
    exact isAbs_of_data _ ds hds

/-- C8: in FastCGI mode with a relative listen address, the socket is
created at the address joined onto the original working directory — the one
captured before `main` changes into the output directory — regardless of
what the output directory is: the rewritten address is already absolute, so
the kernel's resolution against the post-chdir working directory leaves it
untouched. -/
theorem C8_socket_uses_original_cwd (cwd0 dir laddr : String)
    (habs : isAbs cwd0 = true) (hrel : isAbs laddr = false) :
    socketPath cwd0 dir laddr = filepathJoin cwd0 laddr := by
  have hjoin_abs : isAbs (filepathJoin cwd0 laddr) = true :=
    filepathJoin_abs cwd0 laddr habs
  have h1 : (mainSetup cwd0 dir laddr true).2 = filepathJoin cwd0 laddr := by
    simp only [mainSetup]
    split
    · rfl
    · next hcontra => exact absurd (by simp [hrel]) hcontra
  simp only [socketPath]
  rw [h1]
  unfold resolveAgainst
  split
  · rfl
  · next hcontra => exact absurd hjoin_abs hcontra

/-- Witness for C8: with original working directory `/home/u`, output
directory `posts` and relative socket path `run.sock`, the socket lands at
`/home/u/run.sock`, not under the output directory. -/
theorem C8_socket_uses_original_cwd_witness :
    (isAbs "/home/u" = true ∧ isAbs "run.sock" = false)
    ∧ socketPath "/home/u" "posts" "run.sock" = filepathJoin "/home/u" "run.sock"
    ∧ filepathJoin "/home/u" "run.sock" = "/home/u/run.sock"
    ∧ filepathJoin (resolveAgainst "/home/u" "posts") "run.sock"
        = "/home/u/posts/run.sock" := by
  exact ⟨⟨by decide, by decide⟩,
    C8_socket_uses_original_cwd "/home/u" "posts" "run.sock" (by decide) (by decide),
    by decide, by decide⟩

/-! ### The locking discipline of handler traces (C7) -/

/-- Shape of a single handler invocation's trace: either the request was
rejected without touching the lock (no lock, no critical event, no write),
or the trace is `lock :: cs ++ unlock :: post` where the locked section `cs`
holds no body-write event (only probing and creation happen there) and the
tail `post` after the unlock holds no critical probe/create event — body
streaming happens only after the lock is released. -/
def HandlerTraceShape (t : List Ev) : Prop :=
  (∀ e ∈ t, isCritical e = false ∧ isWrite e = false
    ∧ e ≠ Ev.lock ∧ e ≠ Ev.unlock) ∨
  ∃ cs post, t = Ev.lock :: (cs ++ Ev.unlock :: post)
    ∧ (∀ e ∈ cs, isWrite e = false ∧ e ≠ Ev.lock ∧ e ≠ Ev.unlock)
    ∧ (∀ e ∈ post, isCritical e = false ∧ e ≠ Ev.lock ∧ e ≠ Ev.unlock)

/-- Events in the probe list of a trace are probe events, which are neither
writes nor lock operations. -/
theorem probe_events_benign (probes : List String) :
    ∀ e ∈ probes.map Ev.probe,
      isWrite e = false ∧ e ≠ Ev.lock ∧ e ≠ Ev.unlock := by
  intro e he
  rw [List.mem_map] at he
  obtain ⟨nm, -, rfl⟩ := he
  exact ⟨rfl, fun h => Ev.noConfusion h, fun h => Ev.noConfusion h⟩

/-- Every trace `handle` produces is well shaped. -/
theorem handle_trace_shape (fs : FS) (r : Request) (fuel : Nat)
    (res : HandleResult) (hh : handle fs r fuel = some res) :
    HandlerTraceShape res.trace := by
  unfold handle at hh
  split at hh
  · simp only [Option.some.injEq] at hh
    subst hh
    left
    intro e he
    rw [List.mem_singleton] at he
    subst he
    exact ⟨rfl, rfl, by decide, by decide⟩
  · split at hh
    · exact absurd hh (by simp)
    · rename_i probes heq
      simp only [Option.some.injEq] at hh
      subst hh
      right
      refine ⟨probes.map Ev.probe, [Ev.respond 500 "open"], rfl,
        probe_events_benign _, ?_⟩
      intro e he
      rw [List.mem_singleton] at he
      subst he
      exact ⟨rfl, by decide, by decide⟩
    · rename_i name fs1 probes heq
      dsimp only at hh
      split at hh
      · simp only [Option.some.injEq] at hh
        subst hh
        right
        refine ⟨probes.map Ev.probe ++ [Ev.create name],
          [Ev.write r.body.length, Ev.respond 500 "write", Ev.close],
          by simp, ?_, ?_⟩
        · intro e he
          rw [List.mem_append] at he
          rcases he with he | he
          · exact probe_events_benign _ e he
          · rw [List.mem_singleton] at he
            subst he
            exact ⟨rfl, fun h => Ev.noConfusion h, fun h => Ev.noConfusion h⟩
        · intro e he
          simp only [List.mem_cons, List.not_mem_nil, or_false] at he
          rcases he with rfl | rfl | rfl
          · exact ⟨rfl, fun h => Ev.noConfusion h, fun h => Ev.noConfusion h⟩
          · exact ⟨rfl, fun h => Ev.noConfusion h, fun h => Ev.noConfusion h⟩
          · exact ⟨rfl, fun h => Ev.noConfusion h, fun h => Ev.noConfusion h⟩
      · simp only [Option.some.injEq] at hh
        subst hh
        right
        refine ⟨probes.map Ev.probe ++ [Ev.create name],
          [Ev.write r.body.length, Ev.respond 200 (natToString r.body.length),
            Ev.close],
          by simp, ?_, ?_⟩
        · intro e he
          rw [List.mem_append] at he
          rcases he with he | he
          · exact probe_events_benign _ e he
          · rw [List.mem_singleton] at he
            subst he
            exact ⟨rfl, fun h => Ev.noConfusion h, fun h => Ev.noConfusion h⟩
        · intro e he
          simp only [List.mem_cons, List.not_mem_nil, or_false] at he
          rcases he with rfl | rfl | rfl
          · exact ⟨rfl, fun h => Ev.noConfusion h, fun h => Ev.noConfusion h⟩
          · exact ⟨rfl, fun h => Ev.noConfusion h, fun h => Ev.noConfusion h⟩
          · exact ⟨rfl, fun h => Ev.noConfusion h, fun h => Ev.noConfusion h⟩

/-- A well-shaped handler trace is a well-formed task trace. -/
theorem handlerTraceShape_traceOK (t : List Ev) (h : HandlerTraceShape t) :
    TraceOK t := by
  rcases h with h | ⟨cs, post, heq, hcs, hpost⟩
  · refine ⟨[], t, Or.inr (Or.inr rfl), by simp, by simp, ?_, ?_⟩
    · intro hmem
      exact (h _ hmem).2.2.1 rfl
    · intro hmem
      exact (h _ hmem).2.2.2 rfl
  · refine ⟨cs, post, Or.inl heq, ?_, ?_, ?_, ?_⟩
    · intro hmem
      exact (hcs _ hmem).2.1 rfl
    · intro hmem
      exact (hcs _ hmem).2.2 rfl
    · intro hmem
      exact (hpost _ hmem).2.1 rfl
    · intro hmem
      exact (hpost _ hmem).2.2 rfl

/-- Consuming the leading `lock` of a well-formed trace: the remainder is
well formed, holds no further lock, and still holds the unlock. -/
theorem traceOK_tail_lock (tl : List Ev) (h : TraceOK (Ev.lock :: tl)) :
    TraceOK tl ∧ Ev.lock ∉ tl ∧ Ev.unlock ∈ tl := by
  obtain ⟨mid, post, hcase, hl1, hu1, hl2, hu2⟩ := h
  rcases hcase with heq | heq | heq
  · simp only [List.cons.injEq] at heq
    obtain ⟨-, htl⟩ := heq
    refine ⟨⟨mid, post, Or.inr (Or.inl htl), hl1, hu1, hl2, hu2⟩, ?_, ?_⟩
    · intro hmem
      rw [htl, List.mem_append, List.mem_cons] at hmem
      rcases hmem with hmem | hmem | hmem
      · exact hl1 hmem
      · exact Ev.noConfusion hmem
      · exact hl2 hmem
    · rw [htl, List.mem_append]
      exact Or.inr (List.mem_cons_self _ _)
  · rcases mid with _ | ⟨m0, mid'⟩
    · simp only [List.nil_append, List.cons.injEq] at heq
      exact absurd heq.1 (by decide)
    · simp only [List.cons_append, List.cons.injEq] at heq
      exact absurd (heq.1 ▸ List.mem_cons_self m0 mid') hl1
  · rw [← heq] at hl2
    exact absurd (List.mem_cons_self _ _) hl2

/-- Consuming the leading `unlock` of a well-formed trace: the remainder is
well formed and holds no further lock or unlock. -/
theorem traceOK_tail_unlock (tl : List Ev) (h : TraceOK (Ev.unlock :: tl)) :
    TraceOK tl ∧ Ev.unlock ∉ tl := by
  obtain ⟨mid, post, hcase, hl1, hu1, hl2, hu2⟩ := h
  rcases hcase with heq | heq | heq
  · simp only [List.cons.injEq] at heq
    exact absurd heq.1 (by decide)
  · rcases mid with _ | ⟨m0, mid'⟩
    · simp only [List.nil_append, List.cons.injEq] at heq
      obtain ⟨-, htl⟩ := heq
      exact ⟨⟨[], post, Or.inr (Or.inr htl), by simp, by simp, hl2, hu2⟩,
        htl ▸ hu2⟩
    · simp only [List.cons_append, List.cons.injEq] at heq
      exact absurd (heq.1 ▸ List.mem_cons_self m0 mid') hu1
  · rw [← heq] at hu2
    exact absurd (List.mem_cons_self _ _) hu2

/-- Consuming a non-lock, non-unlock leading event of a well-formed trace:
the remainder is well formed with unchanged lock and unlock membership. -/
theorem traceOK_tail_other (e : Ev) (tl : List Ev)
    (he1 : e ≠ Ev.lock) (he2 : e ≠ Ev.unlock) (h : TraceOK (e :: tl)) :
    TraceOK tl ∧ (Ev.lock ∈ tl ↔ Ev.lock ∈ e :: tl)
      ∧ (Ev.unlock ∈ tl ↔ Ev.unlock ∈ e :: tl) := by
  have hiff : ∀ x : Ev, x ≠ e → (x ∈ tl ↔ x ∈ e :: tl) := by
    intro x hx
    rw [List.mem_cons]
    exact ⟨Or.inr, fun h => h.resolve_left hx⟩
  refine ⟨?_, hiff _ (fun h => he1 h.symm), hiff _ (fun h => he2 h.symm)⟩
  obtain ⟨mid, post, hcase, hl1, hu1, hl2, hu2⟩ := h
  rcases hcase with heq | heq | heq
  · simp only [List.cons.injEq] at heq
    exact absurd heq.1 he1
  · rcases mid with _ | ⟨m0, mid'⟩
    · simp only [List.nil_append, List.cons.injEq] at heq
      exact absurd heq.1 he2
    · simp only [List.cons_append, List.cons.injEq] at heq
      obtain ⟨-, htl⟩ := heq
      refine ⟨mid', post, Or.inr (Or.inl htl), ?_, ?_, hl2, hu2⟩
      · intro hmem
        exact hl1 (List.mem_cons_of_mem _ hmem)
      · intro hmem
        exact hu1 (List.mem_cons_of_mem _ hmem)
  · refine ⟨[], tl, Or.inr (Or.inr rfl), by simp, by simp, ?_, ?_⟩
    · intro hmem
      exact hl2 (heq ▸ List.mem_cons_of_mem _ hmem)
    · intro hmem
      exact hu2 (heq ▸ List.mem_cons_of_mem _ hmem)

/-- The system invariant is preserved by every interleaving step. -/
theorem sysInv_step {k : Nat} (s s' : Sys k) (hinv : SysInv s)
    (hs : Step s s') : SysInv s' := by
  obtain ⟨hok, hcrit⟩ := hinv
  cases hs with
  | lock i tl hrem hhold =>
    obtain ⟨htl, hnl, hnu⟩ := traceOK_tail_lock tl (hrem ▸ hok i)
    constructor
    · intro j
      show TraceOK (Function.update s.rem i tl j)
      by_cases hji : j = i
      · subst hji
        rw [Function.update_same]
        exact htl
      · rw [Function.update_noteq hji]
        exact hok j
    · intro j hc
      by_cases hji : j = i
      · subst hji
        rfl
      · exfalso
        have hc0 : inCrit s j := by
          unfold inCrit at hc ⊢
          have : Function.update s.rem i tl j = s.rem j :=
            Function.update_noteq hji _ _
          rw [show (⟨Function.update s.rem i tl, some i⟩ : Sys k).rem j
              = Function.update s.rem i tl j from rfl, this] at hc
          exact hc
        have h1 := hcrit j hc0
        rw [hhold] at h1
        exact Option.noConfusion h1
  | unlock i tl hrem hhold =>
    obtain ⟨htl, hnu⟩ := traceOK_tail_unlock tl (hrem ▸ hok i)
    constructor
    · intro j
      show TraceOK (Function.update s.rem i tl j)
      by_cases hji : j = i
      · subst hji
        rw [Function.update_same]
        exact htl
      · rw [Function.update_noteq hji]
        exact hok j
    · intro j hc
      exfalso
      by_cases hji : j = i
      · subst hji
        have hmem : Ev.unlock ∈ Function.update s.rem j tl j := hc.2
        rw [Function.update_same] at hmem
        exact hnu hmem
      · have hc0 : inCrit s j := by
          unfold inCrit at hc ⊢
          have : Function.update s.rem i tl j = s.rem j :=
            Function.update_noteq hji _ _
          rw [show (⟨Function.update s.rem i tl, none⟩ : Sys k).rem j
              = Function.update s.rem i tl j from rfl, this] at hc
          exact hc
        have h1 := hcrit j hc0
        rw [hhold] at h1
        simp only [Option.some.injEq] at h1
        exact hji h1.symm
  | other i e tl hrem hne1 hne2 =>
    obtain ⟨htl, hliff, huiff⟩ :=
      traceOK_tail_other e tl hne1 hne2 (hrem ▸ hok i)
    constructor
    · intro j
      show TraceOK (Function.update s.rem i tl j)
      by_cases hji : j = i
      · subst hji
        rw [Function.update_same]
        exact htl
      · rw [Function.update_noteq hji]
        exact hok j
    · intro j hc
      show s.holder = some j
      by_cases hji : j = i
      · subst hji
        have hc' : Ev.lock ∉ Function.update s.rem j tl j
            ∧ Ev.unlock ∈ Function.update s.rem j tl j := hc
        rw [Function.update_same] at hc'
        have hc0 : inCrit s j := by
          unfold inCrit
          rw [hrem]
          exact ⟨fun hm => hc'.1 (hliff.2 hm), huiff.1 hc'.2⟩
        exact hcrit j hc0
      · have hc0 : inCrit s j := by
          unfold inCrit at hc ⊢
          have : Function.update s.rem i tl j = s.rem j :=
            Function.update_noteq hji _ _
          rw [show (⟨Function.update s.rem i tl, s.holder⟩ : Sys k).rem j
              = Function.update s.rem i tl j from rfl, this] at hc
          exact hc
        exact hcrit j hc0

/-- The system invariant holds in every reachable state. -/
theorem sysInv_reaches {k : Nat} (s s' : Sys k) (h : SysInv s)
    (hr : Reaches s s') : SysInv s' := by
  induction hr with
  | refl => exact h
  | tail h1 h2 ih => exact sysInv_step _ _ ih h2

/-- The invariant holds initially: every task still has its whole
well-shaped trace ahead of it and nobody holds the mutex. -/
theorem sysInv_init {k : Nat} (traces : Fin k → List Ev)
    (hsh : ∀ i, HandlerTraceShape (traces i)) :
    SysInv (Sys.mk traces none) := by
  constructor
  · intro i
    exact handlerTraceShape_traceOK _ (hsh i)
  · intro i hc
    exfalso
    rcases hsh i with h | ⟨cs, post, heq, -, -⟩
    · exact (h _ hc.2).2.2.2 rfl
    · refine hc.1 ?_
      show Ev.lock ∈ traces i
      rw [heq]
      exact List.mem_cons_self _ _

/-- C7: the find-unused-name-then-create-file sequence is guarded by the
single process-wide lock and the lock is released before any body
streaming.  Part one: every handler trace is either lock-free (a rejected
request, which probes and creates nothing) or of the form
`lock :: cs ++ unlock :: post` where the locked section `cs` holds no write
event and the post-unlock tail holds no probe/create event.  Part two: under
the interleaving semantics, in every state reachable from the start of any
family of handler invocations, at most one task is between its `lock` and
its `unlock` — so at most one task executes the probe/create sequence at a
time, and one task's body streaming cannot keep another from allocating a
name. -/
theorem C7_lock_serializes_name_allocation (k : Nat)
    (inputs : Fin k → FS × Request × Nat) (traces : Fin k → List Ev)
    (h : ∀ i, ∃ res, handle (inputs i).1 (inputs i).2.1 (inputs i).2.2 = some res
        ∧ res.trace = traces i) :
    (∀ i, HandlerTraceShape (traces i)) ∧
    (∀ s, Reaches (Sys.mk traces none) s →
      ∀ i j, inCrit s i → inCrit s j → i = j) := by
  have hsh : ∀ i, HandlerTraceShape (traces i) := by
    intro i
    obtain ⟨res, hres, htr⟩ := h i
    exact htr ▸ handle_trace_shape _ _ _ res hres
  refine ⟨hsh, ?_⟩
  intro s hr i j hi hj
  have hinv := sysInv_reaches _ _ (sysInv_init traces hsh) hr
  have h1 := hinv.2 i hi
  have h2 := hinv.2 j hj
  rw [h1] at h2
  exact Option.some.inj h2

/-- Concrete inputs for the C7 witness: one successful POST and one
rejected GET. -/
def inputsW : Fin 2 → FS × Request × Nat :=
  ![([], rqB, 2), ([], rqGet, 2)]

/-- The traces that `handle` produces on `inputsW`. -/
def tracesW : Fin 2 → List Ev :=
  ![[Ev.lock, Ev.probe "1.2.3.4:5_p_000000", Ev.create "1.2.3.4:5_p_000001",
      Ev.unlock, Ev.write 2, Ev.respond 200 "2", Ev.close],
    [Ev.respond 405 "Invalid method"]]

/-- Witness for C7 at the two concrete requests of `inputsW`: their traces
are well shaped, and in the initial interleaving state nobody is in the
critical section. -/
theorem C7_lock_serializes_name_allocation_witness :
    HandlerTraceShape (tracesW 0) ∧ HandlerTraceShape (tracesW 1)
    ∧ (∀ i j, inCrit (Sys.mk tracesW none) i → inCrit (Sys.mk tracesW none) j
        → i = j) := by
  obtain ⟨h1, h2⟩ := C7_lock_serializes_name_allocation 2 inputsW tracesW
    (by intro i; fin_cases i
        · exact ⟨_, rfl, rfl⟩
        · exact ⟨_, rfl, rfl⟩)
  exact ⟨h1 0, h1 1, h2 _ (Reaches.refl _)⟩

end Postfile
